import Mathlib

/-!
# Lease manager of `server.js`

A shallow embedding of the five HTTP handlers of `server.js` over the `locks`
table, and theorems about the lease state machine they implement.

* The `locks` table is a list of rows; the SQL statements the handlers send
  are list operations (`SELECT ... WHERE` is a filter, `UPDATE ... WHERE` a map
  over the matching rows, `INSERT` appends one row, `DELETE ... WHERE` removes
  the matching rows).
* A timestamp is the number of milliseconds of a JavaScript `Date`
  (`Date.getTime()`), an integer.
* `TTL` is the process-wide `TTL_SECONDS` setting, a parameter.
* Every `new Date()` of a handler is a clock reading passed as an argument.
  `/locks/request` reads the clock twice (once for `now`, once inside
  `getExpiryTime`); a call "at time `now`" is the call in which both readings
  are `now`.
* In `step` and `run` the handlers run one after the other on the table (no
  interleaving of their queries); `advance` and `interleave` split a request at
  its `await` and let the statements of several requests alternate.
* The store answers every query (the `catch` branch that turns a failed query
  into a 500 reply is not reached).
-/

namespace LockServer

/-- Milliseconds since the epoch, the value of `Date.getTime()`. -/
abbrev Time := Int

/-- One row of the `locks` table. -/
structure Lock where
  resource_name : String
  process_id : String
  acquired_at : Time
  expires_at : Time
deriving DecidableEq, Repr

/-- The `locks` table. -/
abbrev Locks := List Lock

/-! ## The SQL statements used by the handlers -/

/-- `SELECT * FROM locks WHERE resource_name = $1`. -/
def selectByName (locks : Locks) (resource_name : String) : List Lock :=
  locks.filter (fun r => decide (r.resource_name = resource_name))

/-- `UPDATE locks SET process_id = $1, acquired_at = $2, expires_at = $3
WHERE resource_name = $4`. -/
def updateLock (locks : Locks) (process_id : String) (acquired_at expires_at : Time)
    (resource_name : String) : Locks :=
  locks.map (fun r =>
    if r.resource_name = resource_name then
      { r with process_id := process_id, acquired_at := acquired_at, expires_at := expires_at }
    else r)

/-- `INSERT INTO locks (resource_name, process_id, acquired_at, expires_at)
VALUES ($1, $2, $3, $4)`. -/
def insertLock (locks : Locks) (resource_name process_id : String)
    (acquired_at expires_at : Time) : Locks :=
  locks ++ [⟨resource_name, process_id, acquired_at, expires_at⟩]

/-- `DELETE FROM locks WHERE resource_name = $1`. -/
def deleteByName (locks : Locks) (resource_name : String) : Locks :=
  locks.filter (fun r => !decide (r.resource_name = resource_name))

/-- `SELECT * FROM locks WHERE expires_at > $1`. -/
def selectActive (locks : Locks) (now : Time) : List Lock :=
  locks.filter (fun r => decide (r.expires_at > now))

/-- `SELECT * FROM locks WHERE process_id = $1 AND expires_at > $2`. -/
def selectByProcess (locks : Locks) (process_id : String) (now : Time) : List Lock :=
  locks.filter (fun r => decide (r.process_id = process_id) && decide (r.expires_at > now))

/-! ## Replies -/

/-- The `status` strings of the replies of `/locks/request` and `/locks/release`. -/
inductive LockStatus where
  | acquired
  | denied
  | released
  | not_locked_by_process
deriving DecidableEq, Repr

/-- Reply of `/locks/request`: `{ status, resource_name, process_id }`. -/
structure RequestReply where
  status : LockStatus
  resource_name : String
  process_id : String
deriving DecidableEq, Repr

/-- Reply of `/locks/release`: `{ status, resource_name }`. -/
structure ReleaseReply where
  status : LockStatus
  resource_name : String
deriving DecidableEq, Repr

/-- Reply of `/locks/status/:resource_name`: `{ resource_name, is_locked }`, with
`process_id` and `acquired_at` only when locked. -/
structure StatusReply where
  resource_name : String
  is_locked : Bool
  process_id : Option String
  acquired_at : Option Time
deriving DecidableEq, Repr

/-! ## The handlers -/

/-- `getExpiryTime`: the clock reading plus `TTL` seconds, in milliseconds. -/
def getExpiryTime (TTL : Int) (clock : Time) : Time :=
  clock + TTL * 1000

/-- `POST /locks/request`. `now` is the handler's `new Date()`, `clock` the one
read inside `getExpiryTime`. Returns the reply and the table after the call. -/
def requestLock (TTL : Int) (now clock : Time) (resource_name process_id : String)
    (locks : Locks) : RequestReply × Locks :=
  let expires_at := getExpiryTime TTL clock
  let existing := (selectByName locks resource_name).head?
  match existing with
  | none =>
    (⟨.acquired, resource_name, process_id⟩,
      insertLock locks resource_name process_id now expires_at)
  | some e =>
    if e.expires_at < now then
      (⟨.acquired, resource_name, process_id⟩,
        updateLock locks process_id now expires_at resource_name)
    else if e.process_id = process_id then
      (⟨.acquired, resource_name, process_id⟩, locks)
    else
      (⟨.denied, resource_name, process_id⟩, locks)

/-- `POST /locks/request` at one instant: both clock readings are `now`. -/
def acquire (TTL : Int) (now : Time) (resource_name process_id : String)
    (locks : Locks) : RequestReply × Locks :=
  requestLock TTL now now resource_name process_id locks

/-- `POST /locks/release`. Returns the reply and the table after the call. -/
def release (resource_name process_id : String) (locks : Locks) : ReleaseReply × Locks :=
  let lock := (selectByName locks resource_name).head?
  match lock with
  | none => (⟨.not_locked_by_process, resource_name⟩, locks)
  | some l =>
    if l.process_id ≠ process_id then
      (⟨.not_locked_by_process, resource_name⟩, locks)
    else
      (⟨.released, resource_name⟩, deleteByName locks resource_name)

/-- `GET /locks/status/:resource_name`. It sends one `SELECT` and no statement
that writes, so the table after the call is the table before it. -/
def status (now : Time) (resource_name : String) (locks : Locks) : StatusReply :=
  let lock := (selectByName locks resource_name).head?
  match lock with
  | none => ⟨resource_name, false, none, none⟩
  | some l =>
    if l.expires_at < now then
      ⟨resource_name, false, none, none⟩
    else
      ⟨resource_name, true, some l.process_id, some l.acquired_at⟩

/-- `GET /locks/all-locked`. -/
def allLocked (now : Time) (locks : Locks) : List Lock :=
  selectActive locks now

/-- `GET /locks/process/:process_id`. -/
def locksOfProcess (now : Time) (process_id : String) (locks : Locks) : List Lock :=
  selectByProcess locks process_id now

/-! ## Sequences of calls -/

/-- One call of the service. -/
inductive Call where
  | Acquire (resource_name process_id : String)
  | Release (resource_name process_id : String)
  | Status (resource_name : String)
  | ListActive
  | ListByHolder (process_id : String)
deriving DecidableEq, Repr

/-- The reply to a call. -/
inductive Reply where
  | request (r : RequestReply)
  | release (r : ReleaseReply)
  | status (r : StatusReply)
  | rows (l : List Lock)
deriving DecidableEq, Repr

/-- The caller or holder argument of a call, when it has one. -/
def Call.holder : Call → Option String
  | .Acquire _ p => some p
  | .Release _ p => some p
  | .Status _ => none
  | .ListActive => none
  | .ListByHolder p => some p

/-- One call executed at time `now`: the reply and the table after it. The three
`GET` handlers send no writing statement and leave the table as it is. -/
def step (TTL : Int) (locks : Locks) (c : Call) (now : Time) : Reply × Locks :=
  match c with
  | .Acquire r p => let o := acquire TTL now r p locks; (.request o.1, o.2)
  | .Release r p => let o := release r p locks; (.release o.1, o.2)
  | .Status r => (.status (status now r locks), locks)
  | .ListActive => (.rows (allLocked now locks), locks)
  | .ListByHolder p => (.rows (locksOfProcess now p locks), locks)

/-- A sequence of timed calls executed one after the other: the replies in
order, and the final table. -/
def run (TTL : Int) (locks : Locks) : List (Call × Time) → List Reply × Locks
  | [] => ([], locks)
  | (c, t) :: cs =>
    let o := step TTL locks c t
    let rest := run TTL o.2 cs
    (o.1 :: rest.1, rest.2)

/-- At most one row per `resource_name`. -/
def UniqueNames (locks : Locks) : Prop :=
  (locks.map (fun r => r.resource_name)).Nodup

instance (locks : Locks) : Decidable (UniqueNames locks) := by
  unfold UniqueNames; infer_instance

/-- The row a handler reads for a resource: `result.rows[0]`. -/
def rowOf (locks : Locks) (resource_name : String) : Option Lock :=
  (selectByName locks resource_name).head?

/-! ## Requests in flight

Each `await pool.query(...)` of a handler is a point where another handler may
run. A request in flight is therefore two statements apart: its `SELECT`, and
later its decision on the row it read together with the `UPDATE` or `INSERT`.
Both clock readings of the handler are taken before its `SELECT`. The `INSERT`
is the one of `insertLock`, which knows of no key on `resource_name`. -/

/-- The part of `POST /locks/request` after its `SELECT` has returned `existing`:
the decision on that row, and the `UPDATE` or `INSERT` on the table as it is by
then. -/
def requestWrite (TTL : Int) (now clock : Time) (resource_name process_id : String)
    (existing : Option Lock) (locks : Locks) : RequestReply × Locks :=
  let expires_at := getExpiryTime TTL clock
  match existing with
  | none =>
    (⟨.acquired, resource_name, process_id⟩,
      insertLock locks resource_name process_id now expires_at)
  | some e =>
    if e.expires_at < now then
      (⟨.acquired, resource_name, process_id⟩,
        updateLock locks process_id now expires_at resource_name)
    else if e.process_id = process_id then
      (⟨.acquired, resource_name, process_id⟩, locks)
    else
      (⟨.denied, resource_name, process_id⟩, locks)

/-- How far a request in flight has got. -/
inductive Phase where
  | start
  | selected (existing : Option Lock)
  | replied (r : RequestReply)
deriving DecidableEq, Repr

/-- A request in flight: its arguments, its two clock readings and its phase. -/
structure Pending where
  resource_name : String
  process_id : String
  now : Time
  clock : Time
  phase : Phase
deriving DecidableEq, Repr

/-- The next statement of a request in flight, on the table as it is now. -/
def advance (TTL : Int) (p : Pending) (locks : Locks) : Pending × Locks :=
  match p.phase with
  | .start =>
    ({ p with phase := .selected (selectByName locks p.resource_name).head? }, locks)
  | .selected existing =>
    let o := requestWrite TTL p.now p.clock p.resource_name p.process_id existing locks
    ({ p with phase := .replied o.1 }, o.2)
  | .replied _ => (p, locks)

/-- A schedule names, step by step, the request that executes its next
statement. -/
def interleave (TTL : Int) : List Nat → List Pending × Locks → List Pending × Locks
  | [], s => s
  | i :: rest, (ps, locks) =>
    match ps.get? i with
    | none => interleave TTL rest (ps, locks)
    | some p =>
      let o := advance TTL p locks
      interleave TTL rest (ps.set i o.1, o.2)

/-- The reply of each request, once it has one. -/
def replies (ps : List Pending) : List (Option RequestReply) :=
  ps.map (fun p =>
    match p.phase with
    | .replied r => some r
    | _ => none)

/-! ## Basic facts about the statements -/

theorem rowOf_name {locks : Locks} {R : String} {l : Lock} (h : rowOf locks R = some l) :
    l.resource_name = R := by
  unfold rowOf selectByName at h
  have hm : l ∈ locks.filter (fun r => decide (r.resource_name = R)) :=
    List.mem_of_mem_head? h
  simpa using (List.mem_filter.mp hm).2

theorem rowOf_mem {locks : Locks} {R : String} {l : Lock} (h : rowOf locks R = some l) :
    l ∈ locks := by
  unfold rowOf selectByName at h
  exact (List.mem_filter.mp (List.mem_of_mem_head? h)).1

theorem rowOf_none_iff {locks : Locks} {R : String} :
    rowOf locks R = none ↔ ∀ r ∈ locks, r.resource_name ≠ R := by
  unfold rowOf selectByName
  rw [List.head?_eq_none_iff, List.filter_eq_nil_iff]
  simp


theorem requestLock_absent (TTL : Int) (now clock : Time) (R H : String) (locks : Locks)
    (h : rowOf locks R = none) :
    requestLock TTL now clock R H locks =
      (⟨.acquired, R, H⟩, insertLock locks R H now (getExpiryTime TTL clock)) := by
  unfold rowOf at h
  simp only [requestLock, h]

theorem requestLock_expired (TTL : Int) (now clock : Time) (R H : String) (locks : Locks)
    (e : Lock) (h : rowOf locks R = some e) (hexp : e.expires_at < now) :
    requestLock TTL now clock R H locks =
      (⟨.acquired, R, H⟩, updateLock locks H now (getExpiryTime TTL clock) R) := by
  unfold rowOf at h
  simp only [requestLock, h, hexp, if_true]

theorem requestLock_own (TTL : Int) (now clock : Time) (R H : String) (locks : Locks)
    (e : Lock) (h : rowOf locks R = some e) (hexp : ¬ e.expires_at < now)
    (hp : e.process_id = H) :
    requestLock TTL now clock R H locks = (⟨.acquired, R, H⟩, locks) := by
  unfold rowOf at h
  simp only [requestLock, h, hexp, hp, if_true, if_false]

theorem requestLock_other (TTL : Int) (now clock : Time) (R H : String) (locks : Locks)
    (e : Lock) (h : rowOf locks R = some e) (hexp : ¬ e.expires_at < now)
    (hp : e.process_id ≠ H) :
    requestLock TTL now clock R H locks = (⟨.denied, R, H⟩, locks) := by
  unfold rowOf at h
  simp only [requestLock, h, hexp, hp, if_false]

theorem release_absent (R H : String) (locks : Locks) (h : rowOf locks R = none) :
    release R H locks = (⟨.not_locked_by_process, R⟩, locks) := by
  unfold rowOf at h
  simp only [release, h]

theorem release_other (R H : String) (locks : Locks) (l : Lock)
    (h : rowOf locks R = some l) (hp : l.process_id ≠ H) :
    release R H locks = (⟨.not_locked_by_process, R⟩, locks) := by
  unfold rowOf at h
  simp only [release, h, ne_eq, hp, not_false_eq_true, if_true]

theorem release_own (R H : String) (locks : Locks) (l : Lock)
    (h : rowOf locks R = some l) (hp : l.process_id = H) :
    release R H locks = (⟨.released, R⟩, deleteByName locks R) := by
  unfold rowOf at h
  simp only [release, h, ne_eq, hp, not_true_eq_false, if_false]

theorem status_absent (now : Time) (R : String) (locks : Locks) (h : rowOf locks R = none) :
    status now R locks = ⟨R, false, none, none⟩ := by
  unfold rowOf at h
  simp only [status, h]

theorem status_expired (now : Time) (R : String) (locks : Locks) (l : Lock)
    (h : rowOf locks R = some l) (hexp : l.expires_at < now) :
    status now R locks = ⟨R, false, none, none⟩ := by
  unfold rowOf at h
  simp only [status, h, hexp, if_true]

theorem status_active (now : Time) (R : String) (locks : Locks) (l : Lock)
    (h : rowOf locks R = some l) (hexp : ¬ l.expires_at < now) :
    status now R locks = ⟨R, true, some l.process_id, some l.acquired_at⟩ := by
  unfold rowOf at h
  simp only [status, h, hexp, if_false]

theorem selectByName_insertLock_other (locks : Locks) (R R2 H : String) (a e : Time)
    (hne : R2 ≠ R) :
    selectByName (insertLock locks R2 H a e) R = selectByName locks R := by
  simp [selectByName, insertLock, List.filter_append, List.filter_cons, hne]

theorem selectByName_insertLock_same (locks : Locks) (R H : String) (a e : Time) :
    selectByName (insertLock locks R H a e) R = selectByName locks R ++ [⟨R, H, a, e⟩] := by
  simp [selectByName, insertLock, List.filter_append, List.filter_cons]

theorem selectByName_updateLock_other (locks : Locks) (R R2 H : String) (a e : Time)
    (hne : R2 ≠ R) :
    selectByName (updateLock locks H a e R2) R = selectByName locks R := by
  induction locks with
  | nil => rfl
  | cons r rs ih =>
    unfold selectByName updateLock at ih ⊢
    by_cases h2 : r.resource_name = R2
    · have h1 : r.resource_name ≠ R := fun h => hne (h2.symm.trans h)
      simp [List.filter_cons, h2, hne, h1, ih]
    · by_cases h1 : r.resource_name = R <;> simp [List.filter_cons, h2, h1, ih, Ne.symm hne]

theorem selectByName_updateLock_same (locks : Locks) (R H : String) (a e : Time) :
    selectByName (updateLock locks H a e R) R =
      (selectByName locks R).map (fun _ => (⟨R, H, a, e⟩ : Lock)) := by
  induction locks with
  | nil => rfl
  | cons r rs ih =>
    unfold selectByName updateLock at ih ⊢
    by_cases h1 : r.resource_name = R
    · simp [List.filter_cons, h1, ih]
    · simp [List.filter_cons, h1, ih]

theorem selectByName_deleteByName_other (locks : Locks) (R R2 : String) (hne : R2 ≠ R) :
    selectByName (deleteByName locks R2) R = selectByName locks R := by
  unfold selectByName deleteByName
  rw [List.filter_filter]
  apply List.filter_congr
  intro r _
  by_cases h1 : r.resource_name = R
  · have h2 : r.resource_name ≠ R2 := fun h => hne (h.symm.trans h1)
    simp [h1, Ne.symm hne]
  · simp [h1]

theorem selectByName_deleteByName_same (locks : Locks) (R : String) :
    selectByName (deleteByName locks R) R = [] := by
  unfold selectByName deleteByName
  rw [List.filter_filter, List.filter_eq_nil_iff]
  intro r _
  by_cases h1 : r.resource_name = R <;> simp [h1]


theorem rowOf_insertLock_other (locks : Locks) (R R2 H : String) (a e : Time) (hne : R2 ≠ R) :
    rowOf (insertLock locks R2 H a e) R = rowOf locks R := by
  unfold rowOf; rw [selectByName_insertLock_other locks R R2 H a e hne]

theorem rowOf_updateLock_other (locks : Locks) (R R2 H : String) (a e : Time) (hne : R2 ≠ R) :
    rowOf (updateLock locks H a e R2) R = rowOf locks R := by
  unfold rowOf; rw [selectByName_updateLock_other locks R R2 H a e hne]

theorem rowOf_deleteByName_other (locks : Locks) (R R2 : String) (hne : R2 ≠ R) :
    rowOf (deleteByName locks R2) R = rowOf locks R := by
  unfold rowOf; rw [selectByName_deleteByName_other locks R R2 hne]

/-- A request for another resource leaves the row read for `R` as it is. -/
theorem rowOf_requestLock_other (TTL : Int) (now clock : Time) (R R2 H : String)
    (locks : Locks) (hne : R2 ≠ R) :
    rowOf (requestLock TTL now clock R2 H locks).2 R = rowOf locks R := by
  cases h : rowOf locks R2 with
  | none =>
    rw [requestLock_absent TTL now clock R2 H locks h]
    exact rowOf_insertLock_other locks R R2 H now _ hne
  | some e =>
    by_cases hexp : e.expires_at < now
    · rw [requestLock_expired TTL now clock R2 H locks e h hexp]
      exact rowOf_updateLock_other locks R R2 H now _ hne
    · by_cases hp : e.process_id = H
      · rw [requestLock_own TTL now clock R2 H locks e h hexp hp]
      · rw [requestLock_other TTL now clock R2 H locks e h hexp hp]

/-- A release of another resource leaves the row read for `R` as it is. -/
theorem rowOf_release_other (R R2 H : String) (locks : Locks) (hne : R2 ≠ R) :
    rowOf (release R2 H locks).2 R = rowOf locks R := by
  cases h : rowOf locks R2 with
  | none => rw [release_absent R2 H locks h]
  | some l =>
    by_cases hp : l.process_id = H
    · rw [release_own R2 H locks l h hp]
      exact rowOf_deleteByName_other locks R R2 hne
    · rw [release_other R2 H locks l h hp]

theorem run_length (TTL : Int) (calls : List (Call × Time)) (locks : Locks) :
    (run TTL locks calls).1.length = calls.length := by
  induction calls generalizing locks with
  | nil => rfl
  | cons c cs ih =>
    obtain ⟨c, t⟩ := c
    simp only [run, List.length_cons, ih]

/-- One step by a caller other than the holder, before the expiry of the row
read for `R`: the reply to a request or release on `R` is a refusal, and the
row read for `R` is the same afterwards. -/
theorem step_other_holder (TTL : Int) (locks : Locks) (R H1 : String) (row : Lock)
    (c : Call) (t : Time)
    (hrow : rowOf locks R = some row) (hH : row.process_id = H1)
    (hc : c.holder ≠ some H1) (ht : t < row.expires_at) :
    (∀ H, c = .Acquire R H → (step TTL locks c t).1 = .request ⟨.denied, R, H⟩) ∧
    (∀ H, c = .Release R H →
      (step TTL locks c t).1 = .release ⟨.not_locked_by_process, R⟩) ∧
    rowOf (step TTL locks c t).2 R = some row := by
  have hexp : ¬ row.expires_at < t := not_lt.mpr (le_of_lt ht)
  cases c with
  | Acquire r p =>
    have hp : row.process_id ≠ p := by
      intro h; apply hc; simp [Call.holder, ← hH, h]
    by_cases hr : r = R
    · subst hr
      refine ⟨?_, ?_, ?_⟩
      · intro H hc2
        injection hc2 with _ h2
        subst h2
        simp only [step, acquire, requestLock_other TTL t t r p locks row hrow hexp hp]
      · intro H hc2; cases hc2
      · simp only [step, acquire, requestLock_other TTL t t r p locks row hrow hexp hp, hrow]
    · refine ⟨?_, ?_, ?_⟩
      · intro H hc2; injection hc2 with h1 _; exact absurd h1 hr
      · intro H hc2; cases hc2
      · simp only [step, acquire]
        rw [rowOf_requestLock_other TTL t t R r p locks hr]; exact hrow
  | Release r p =>
    have hp : row.process_id ≠ p := by
      intro h; apply hc; simp [Call.holder, ← hH, h]
    by_cases hr : r = R
    · subst hr
      refine ⟨?_, ?_, ?_⟩
      · intro H hc2; cases hc2
      · intro H hc2
        simp only [step, release_other r p locks row hrow hp]
      · simp only [step, release_other r p locks row hrow hp, hrow]
    · refine ⟨?_, ?_, ?_⟩
      · intro H hc2; cases hc2
      · intro H hc2; injection hc2 with h1 _; exact absurd h1 hr
      · simp only [step]
        rw [rowOf_release_other R r p locks hr]; exact hrow
  | Status r =>
    exact ⟨fun H h => (by cases h), fun H h => (by cases h), hrow⟩
  | ListActive =>
    exact ⟨fun H h => (by cases h), fun H h => (by cases h), hrow⟩
  | ListByHolder p =>
    exact ⟨fun H h => (by cases h), fun H h => (by cases h), hrow⟩


/-! ## The claims -/

/-- C1: a request by a holder other than the one of the row read for `R`, while
that row expires strictly after `now`, is answered `denied` and leaves the table
exactly as it was (whatever the second clock reading). -/
theorem acquire_active_other_holder_denied (TTL : Int) (now clock : Time) (locks : Locks)
    (R H1 H2 : String) (row : Lock)
    (hrow : rowOf locks R = some row) (hH : row.process_id = H1) (hne : H1 ≠ H2)
    (hact : row.expires_at > now) :
    (requestLock TTL now clock R H2 locks).1.status = .denied ∧
    (requestLock TTL now clock R H2 locks).2 = locks := by
  have hexp : ¬ row.expires_at < now := not_lt.mpr (le_of_lt hact)
  have hp : row.process_id ≠ H2 := by rw [hH]; exact hne
  rw [requestLock_other TTL now clock R H2 locks row hrow hexp hp]
  exact ⟨rfl, rfl⟩

theorem acquire_active_other_holder_denied_witness :
    (requestLock 30 5000 5000 "job-1" "p2" [⟨"job-1", "p1", 0, 30000⟩]).1.status = .denied ∧
    (requestLock 30 5000 5000 "job-1" "p2" [⟨"job-1", "p1", 0, 30000⟩]).2 =
      [⟨"job-1", "p1", 0, 30000⟩] :=
  acquire_active_other_holder_denied 30 5000 5000 [⟨"job-1", "p1", 0, 30000⟩]
    "job-1" "p1" "p2" ⟨"job-1", "p1", 0, 30000⟩ (by decide) rfl (by decide) (by decide)

/-- C2: while the row read for `R` is held by `H1` and expires at `E`, any
sequence of calls made strictly before `E` by callers other than `H1` gets
`denied` for every request on `R` and `not_locked_by_process` for every release
of `R`, and the row read for `R` after the whole sequence is the same row (same
holder, same `acquired_at`, same `expires_at`). -/
theorem holder_stable_during_lease (TTL : Int) (locks : Locks) (R H1 : String) (row : Lock)
    (calls : List (Call × Time))
    (hrow : rowOf locks R = some row) (hH : row.process_id = H1)
    (hcalls : ∀ ct ∈ calls, ct.1.holder ≠ some H1 ∧ ct.2 < row.expires_at) :
    (run TTL locks calls).1.length = calls.length ∧
    (∀ cr ∈ List.zip calls (run TTL locks calls).1,
      (∀ H, cr.1.1 = .Acquire R H → cr.2 = .request ⟨.denied, R, H⟩) ∧
      (∀ H, cr.1.1 = .Release R H → cr.2 = .release ⟨.not_locked_by_process, R⟩)) ∧
    rowOf (run TTL locks calls).2 R = some row := by
  refine ⟨run_length TTL calls locks, ?_⟩
  induction calls generalizing locks with
  | nil =>
    refine ⟨?_, hrow⟩
    intro cr hcr
    simp [run] at hcr
  | cons c cs ih =>
    obtain ⟨c, t⟩ := c
    have hhead := hcalls (c, t) (List.mem_cons_self _ _)
    have hs := step_other_holder TTL locks R H1 row c t hrow hH hhead.1 hhead.2
    have htail := ih (step TTL locks c t).2 hs.2.2
      (fun ct hct => hcalls ct (List.mem_cons_of_mem _ hct))
    refine ⟨?_, ?_⟩
    · intro cr hcr
      simp only [run, List.zip_cons_cons, List.mem_cons] at hcr
      rcases hcr with hcr | hcr
      · subst hcr
        exact ⟨hs.1, hs.2.1⟩
      · exact htail.1 cr hcr
    · simpa only [run] using htail.2

theorem holder_stable_during_lease_witness :
    (run 30 [⟨"job-1", "p1", 0, 30000⟩]
      [(.Acquire "job-1" "p2", 5000), (.Release "job-1" "p2", 6000),
        (.Acquire "job-2" "p2", 7000), (.Status "job-1", 8000)]).1.length = 4 ∧
    (∀ cr ∈ List.zip
        [(Call.Acquire "job-1" "p2", (5000 : Time)), (.Release "job-1" "p2", 6000),
          (.Acquire "job-2" "p2", 7000), (.Status "job-1", 8000)]
        (run 30 [⟨"job-1", "p1", 0, 30000⟩]
          [(.Acquire "job-1" "p2", 5000), (.Release "job-1" "p2", 6000),
            (.Acquire "job-2" "p2", 7000), (.Status "job-1", 8000)]).1,
      (∀ H, cr.1.1 = .Acquire "job-1" H → cr.2 = .request ⟨.denied, "job-1", H⟩) ∧
      (∀ H, cr.1.1 = .Release "job-1" H →
        cr.2 = .release ⟨.not_locked_by_process, "job-1"⟩)) ∧
    rowOf (run 30 [⟨"job-1", "p1", 0, 30000⟩]
      [(.Acquire "job-1" "p2", 5000), (.Release "job-1" "p2", 6000),
        (.Acquire "job-2" "p2", 7000), (.Status "job-1", 8000)]).2 "job-1" =
      some ⟨"job-1", "p1", 0, 30000⟩ :=
  holder_stable_during_lease 30 [⟨"job-1", "p1", 0, 30000⟩] "job-1" "p1"
    ⟨"job-1", "p1", 0, 30000⟩
    [(.Acquire "job-1" "p2", 5000), (.Release "job-1" "p2", 6000),
      (.Acquire "job-2" "p2", 7000), (.Status "job-1", 8000)]
    (by decide) rfl (by decide)


theorem uniqueNames_insertLock (locks : Locks) (R H : String) (a e : Time)
    (hu : UniqueNames locks) (hnone : rowOf locks R = none) :
    UniqueNames (insertLock locks R H a e) := by
  unfold UniqueNames insertLock at *
  rw [List.map_append, List.nodup_append]
  refine ⟨hu, by simp, ?_⟩
  intro x hx hx2
  simp only [List.map_cons, List.map_nil, List.mem_singleton] at hx2
  subst hx2
  obtain ⟨r, hr, hrx⟩ := List.mem_map.mp hx
  exact (rowOf_none_iff.mp hnone) r hr hrx

theorem names_updateLock (locks : Locks) (R H : String) (a e : Time) :
    (updateLock locks H a e R).map (fun r => r.resource_name) =
      locks.map (fun r => r.resource_name) := by
  unfold updateLock
  rw [List.map_map]
  apply List.map_congr_left
  intro r _
  by_cases h : r.resource_name = R <;> simp [h]

theorem uniqueNames_updateLock (locks : Locks) (R H : String) (a e : Time)
    (hu : UniqueNames locks) : UniqueNames (updateLock locks H a e R) := by
  unfold UniqueNames at *
  rw [names_updateLock]; exact hu

theorem uniqueNames_deleteByName (locks : Locks) (R : String) (hu : UniqueNames locks) :
    UniqueNames (deleteByName locks R) := by
  unfold UniqueNames deleteByName at *
  exact List.Nodup.sublist ((List.filter_sublist locks).map _) hu

theorem uniqueNames_requestLock (TTL : Int) (now clock : Time) (R H : String) (locks : Locks)
    (hu : UniqueNames locks) : UniqueNames (requestLock TTL now clock R H locks).2 := by
  cases h : rowOf locks R with
  | none =>
    rw [requestLock_absent TTL now clock R H locks h]
    exact uniqueNames_insertLock locks R H now _ hu h
  | some e =>
    by_cases hexp : e.expires_at < now
    · rw [requestLock_expired TTL now clock R H locks e h hexp]
      exact uniqueNames_updateLock locks R H now _ hu
    · by_cases hp : e.process_id = H
      · rw [requestLock_own TTL now clock R H locks e h hexp hp]; exact hu
      · rw [requestLock_other TTL now clock R H locks e h hexp hp]; exact hu

theorem uniqueNames_release (R H : String) (locks : Locks) (hu : UniqueNames locks) :
    UniqueNames (release R H locks).2 := by
  cases h : rowOf locks R with
  | none => rw [release_absent R H locks h]; exact hu
  | some l =>
    by_cases hp : l.process_id = H
    · rw [release_own R H locks l h hp]; exact uniqueNames_deleteByName locks R hu
    · rw [release_other R H locks l h hp]; exact hu

theorem uniqueNames_step (TTL : Int) (locks : Locks) (c : Call) (t : Time)
    (hu : UniqueNames locks) : UniqueNames (step TTL locks c t).2 := by
  cases c with
  | Acquire r p => exact uniqueNames_requestLock TTL t t r p locks hu
  | Release r p => exact uniqueNames_release r p locks hu
  | Status r => exact hu
  | ListActive => exact hu
  | ListByHolder p => exact hu

theorem uniqueNames_run (TTL : Int) (calls : List (Call × Time)) (locks : Locks)
    (hu : UniqueNames locks) : UniqueNames (run TTL locks calls).2 := by
  induction calls generalizing locks with
  | nil => exact hu
  | cons c cs ih =>
    obtain ⟨c, t⟩ := c
    exact ih (step TTL locks c t).2 (uniqueNames_step TTL locks c t hu)

theorem uniqueNames_eq_of_name (locks : Locks) (hu : UniqueNames locks) (r1 r2 : Lock)
    (h1 : r1 ∈ locks) (h2 : r2 ∈ locks) (hn : r1.resource_name = r2.resource_name) :
    r1 = r2 :=
  List.inj_on_of_nodup_map hu h1 h2 hn

theorem uniqueNames_select_le_one (locks : Locks) (hu : UniqueNames locks) (R : String) :
    (selectByName locks R).length ≤ 1 := by
  induction locks with
  | nil => simp [selectByName]
  | cons r rs ih =>
    have hu2 : UniqueNames rs := by
      unfold UniqueNames at *
      exact (List.nodup_cons.mp hu).2
    have hnot : r.resource_name ∉ rs.map (fun r => r.resource_name) := by
      unfold UniqueNames at hu
      exact (List.nodup_cons.mp hu).1
    by_cases h : r.resource_name = R
    · have hnil : selectByName rs R = [] := by
        unfold selectByName
        rw [List.filter_eq_nil_iff]
        intro x hx
        simp only [decide_eq_true_eq]
        intro hxR
        exact hnot (List.mem_map.mpr ⟨x, hx, hxR.trans h.symm⟩)
      have : selectByName (r :: rs) R = r :: selectByName rs R := by
        simp [selectByName, List.filter_cons, h]
      rw [this, hnil]; simp
    · have : selectByName (r :: rs) R = selectByName rs R := by
        simp [selectByName, List.filter_cons, h]
      rw [this]; exact ih hu2

/-- C3: starting from the empty table, after any sequence of calls executed one
after the other (any arguments, any times) the table has at most one row per
`resource_name`: the names are pairwise different, a `SELECT` by name returns at
most one row, and at every instant two active rows of one resource are the same
row, so that at most one `process_id` holds an active lease on it. -/
theorem mutual_exclusion_reachable (TTL : Int) (calls : List (Call × Time)) :
    UniqueNames (run TTL [] calls).2 ∧
    (∀ R : String, (selectByName (run TTL [] calls).2 R).length ≤ 1) ∧
    (∀ (now : Time) (r1 r2 : Lock),
      r1 ∈ allLocked now (run TTL [] calls).2 → r2 ∈ allLocked now (run TTL [] calls).2 →
      r1.resource_name = r2.resource_name → r1 = r2 ∧ r1.process_id = r2.process_id) := by
  have hu : UniqueNames (run TTL [] calls).2 :=
    uniqueNames_run TTL calls [] (by simp [UniqueNames])
  refine ⟨hu, fun R => uniqueNames_select_le_one _ hu R, ?_⟩
  intro now r1 r2 h1 h2 hn
  unfold allLocked selectActive at h1 h2
  have e := uniqueNames_eq_of_name _ hu r1 r2 (List.mem_filter.mp h1).1
    (List.mem_filter.mp h2).1 hn
  exact ⟨e, by rw [e]⟩


theorem rowOf_insertLock_same (locks : Locks) (R H : String) (a e : Time)
    (hnone : rowOf locks R = none) :
    rowOf (insertLock locks R H a e) R = some ⟨R, H, a, e⟩ := by
  unfold rowOf at *
  rw [selectByName_insertLock_same, List.head?_eq_none_iff.mp hnone]
  rfl

theorem rowOf_updateLock_same (locks : Locks) (R H : String) (a e : Time) (row : Lock)
    (hrow : rowOf locks R = some row) :
    rowOf (updateLock locks H a e R) R = some ⟨R, H, a, e⟩ := by
  unfold rowOf at *
  rw [selectByName_updateLock_same, List.head?_map, hrow]
  rfl

theorem updateLock_eq_map (locks : Locks) (R H : String) (a e : Time) :
    updateLock locks H a e R =
      locks.map (fun r => if r.resource_name = R then (⟨R, H, a, e⟩ : Lock) else r) := by
  unfold updateLock
  apply List.map_congr_left
  intro r _
  by_cases h : r.resource_name = R
  · simp [h]
  · simp [h]

/-- C4: on a table with no row for `R`, a request for `R` by `H` at `now` is
answered `acquired`, and the table afterwards is the old table followed by the
one new row `(R, H, acquired_at = now, expires_at = now + TTL seconds)`; this
holds for every `TTL`, positive ones included. -/
theorem first_acquire_inserts_row (TTL : Int) (now : Time) (locks : Locks) (R H : String)
    (hnone : ∀ r ∈ locks, r.resource_name ≠ R) :
    acquire TTL now R H locks =
      (⟨.acquired, R, H⟩, locks ++ [⟨R, H, now, now + TTL * 1000⟩]) := by
  unfold acquire
  rw [requestLock_absent TTL now now R H locks (rowOf_none_iff.mpr hnone)]
  rfl

theorem first_acquire_inserts_row_witness :
    acquire 30 5000 "job-1" "p1" [⟨"job-2", "p2", 0, 30000⟩] =
      (⟨.acquired, "job-1", "p1"⟩,
        [⟨"job-2", "p2", 0, 30000⟩] ++ [⟨"job-1", "p1", 5000, 5000 + 30 * 1000⟩]) :=
  first_acquire_inserts_row 30 5000 [⟨"job-2", "p2", 0, 30000⟩] "job-1" "p1" (by decide)

/-- C5: when the row read for `R` expired strictly before `now` (whoever holds
it), a request for `R` by any `H2` at `now` is answered `acquired`; the table
afterwards is the old one with every row of `R` overwritten in place by
`(R, H2, acquired_at = now, expires_at = now + TTL seconds)`, so the row read
for `R` is that row, the number of rows is the same, and the rows of every other
resource are the same. -/
theorem expiry_takeover (TTL : Int) (now : Time) (locks : Locks) (R H2 : String) (row : Lock)
    (hrow : rowOf locks R = some row) (hexp : row.expires_at < now) :
    acquire TTL now R H2 locks =
      (⟨.acquired, R, H2⟩,
        locks.map (fun r =>
          if r.resource_name = R then (⟨R, H2, now, now + TTL * 1000⟩ : Lock) else r)) ∧
    rowOf (acquire TTL now R H2 locks).2 R = some ⟨R, H2, now, now + TTL * 1000⟩ ∧
    (acquire TTL now R H2 locks).2.length = locks.length ∧
    (selectByName (acquire TTL now R H2 locks).2 R).length = (selectByName locks R).length ∧
    (∀ R2, R2 ≠ R →
      selectByName (acquire TTL now R H2 locks).2 R2 = selectByName locks R2) := by
  have hacq : acquire TTL now R H2 locks =
      (⟨.acquired, R, H2⟩, updateLock locks H2 now (now + TTL * 1000) R) := by
    unfold acquire
    rw [requestLock_expired TTL now now R H2 locks row hrow hexp]
    rfl
  refine ⟨?_, ?_, ?_, ?_, ?_⟩
  · rw [hacq, updateLock_eq_map]
  · rw [hacq]; exact rowOf_updateLock_same locks R H2 now _ row hrow
  · rw [hacq]; simp [updateLock]
  · rw [hacq]; simp [selectByName_updateLock_same]
  · intro R2 hne
    rw [hacq]
    exact selectByName_updateLock_other locks R2 R H2 now _ (Ne.symm hne)

theorem expiry_takeover_witness :
    acquire 30 40000 "job-1" "p2" [⟨"job-1", "p1", 0, 30000⟩, ⟨"job-2", "p3", 0, 50000⟩] =
      (⟨.acquired, "job-1", "p2"⟩,
        [⟨"job-1", "p1", 0, 30000⟩, ⟨"job-2", "p3", 0, 50000⟩].map (fun r =>
          if r.resource_name = "job-1" then
            (⟨"job-1", "p2", 40000, 40000 + 30 * 1000⟩ : Lock) else r)) ∧
    rowOf (acquire 30 40000 "job-1" "p2"
        [⟨"job-1", "p1", 0, 30000⟩, ⟨"job-2", "p3", 0, 50000⟩]).2 "job-1" =
      some ⟨"job-1", "p2", 40000, 40000 + 30 * 1000⟩ ∧
    (acquire 30 40000 "job-1" "p2"
        [⟨"job-1", "p1", 0, 30000⟩, ⟨"job-2", "p3", 0, 50000⟩]).2.length =
      [(⟨"job-1", "p1", 0, 30000⟩ : Lock), ⟨"job-2", "p3", 0, 50000⟩].length ∧
    (selectByName (acquire 30 40000 "job-1" "p2"
        [⟨"job-1", "p1", 0, 30000⟩, ⟨"job-2", "p3", 0, 50000⟩]).2 "job-1").length =
      (selectByName [⟨"job-1", "p1", 0, 30000⟩, ⟨"job-2", "p3", 0, 50000⟩] "job-1").length ∧
    (∀ R2, R2 ≠ "job-1" →
      selectByName (acquire 30 40000 "job-1" "p2"
        [⟨"job-1", "p1", 0, 30000⟩, ⟨"job-2", "p3", 0, 50000⟩]).2 R2 =
      selectByName [⟨"job-1", "p1", 0, 30000⟩, ⟨"job-2", "p3", 0, 50000⟩] R2) :=
  expiry_takeover 30 40000 [⟨"job-1", "p1", 0, 30000⟩, ⟨"job-2", "p3", 0, 50000⟩]
    "job-1" "p2" ⟨"job-1", "p1", 0, 30000⟩ (by decide) (by decide)


/-- A request by the holder of the row read for `R` is answered `acquired` and
the row read for `R` afterwards is again held by that holder. -/
theorem acquire_by_holder (TTL : Int) (now : Time) (locks : Locks) (R H : String) (row : Lock)
    (hrow : rowOf locks R = some row) (hH : row.process_id = H) :
    (acquire TTL now R H locks).1 = ⟨.acquired, R, H⟩ ∧
    ∃ row2, rowOf (acquire TTL now R H locks).2 R = some row2 ∧ row2.process_id = H := by
  unfold acquire
  by_cases hexp : row.expires_at < now
  · rw [requestLock_expired TTL now now R H locks row hrow hexp]
    exact ⟨rfl, _, rowOf_updateLock_same locks R H now _ row hrow, rfl⟩
  · rw [requestLock_own TTL now now R H locks row hrow hexp hH]
    exact ⟨rfl, row, hrow, hH⟩

/-- C6: when the row read for `R` is held by `H`, any number of successive
requests for `R` by `H` (at any times, for any `TTL`) are all answered
`acquired`, and after each of them (after every prefix of the sequence) the row
read for `R` is still held by `H`. -/
theorem self_renewal_always_acquired (TTL : Int) (locks : Locks) (R H : String) (row : Lock)
    (times : List Time)
    (hrow : rowOf locks R = some row) (hH : row.process_id = H) :
    (run TTL locks (times.map (fun t => (Call.Acquire R H, t)))).1 =
      times.map (fun _ => Reply.request ⟨.acquired, R, H⟩) ∧
    ∀ k : Nat, ∃ row2,
      rowOf (run TTL locks ((times.take k).map (fun t => (Call.Acquire R H, t)))).2 R =
        some row2 ∧ row2.process_id = H := by
  induction times generalizing locks row with
  | nil =>
    refine ⟨rfl, ?_⟩
    intro k
    exact ⟨row, by simpa [run] using hrow, hH⟩
  | cons t ts ih =>
    have hs := acquire_by_holder TTL t locks R H row hrow hH
    obtain ⟨row2, hrow2, hH2⟩ := hs.2
    have htail := ih (acquire TTL t R H locks).2 row2 hrow2 hH2
    refine ⟨?_, ?_⟩
    · simp only [List.map_cons, run, step, hs.1, htail.1]
    · intro k
      cases k with
      | zero => exact ⟨row, by simpa [run] using hrow, hH⟩
      | succ k =>
        simpa only [List.take_succ_cons, List.map_cons, run, step] using htail.2 k

theorem self_renewal_always_acquired_witness :
    (run 30 [⟨"job-1", "p1", 0, 30000⟩]
      ([5000, 29000, 31000].map (fun t => (Call.Acquire "job-1" "p1", t)))).1 =
      [(5000 : Time), 29000, 31000].map
        (fun _ => Reply.request ⟨.acquired, "job-1", "p1"⟩) ∧
    ∀ k : Nat, ∃ row2,
      rowOf (run 30 [⟨"job-1", "p1", 0, 30000⟩]
        (([5000, 29000, 31000].take k).map
          (fun t => (Call.Acquire "job-1" "p1", t)))).2 "job-1" =
        some row2 ∧ row2.process_id = "p1" :=
  self_renewal_always_acquired 30 [⟨"job-1", "p1", 0, 30000⟩] "job-1" "p1"
    ⟨"job-1", "p1", 0, 30000⟩ [5000, 29000, 31000] (by decide) rfl

/-- C7: for a positive `TTL`, the reply to a request for `R` by `H` at `now` is
`acquired` or `denied`; when it is `acquired`, the status of `R` read at the same
`now` on the table after the request is locked with `process_id = H`; when it is
`denied`, that status is locked with a `process_id` other than `H`. -/
theorem acquire_reply_truthful (TTL : Int) (now : Time) (locks : Locks) (R H : String)
    (hTTL : 0 < TTL) :
    ((acquire TTL now R H locks).1.status = .acquired ∨
      (acquire TTL now R H locks).1.status = .denied) ∧
    ((acquire TTL now R H locks).1.status = .acquired →
      (status now R (acquire TTL now R H locks).2).is_locked = true ∧
      (status now R (acquire TTL now R H locks).2).process_id = some H) ∧
    ((acquire TTL now R H locks).1.status = .denied →
      (status now R (acquire TTL now R H locks).2).is_locked = true ∧
      ∃ H2, (status now R (acquire TTL now R H locks).2).process_id = some H2 ∧ H2 ≠ H) := by
  have hfresh : ¬ getExpiryTime TTL now < now := by
    unfold getExpiryTime
    have : (0 : Int) < TTL * 1000 := by positivity
    intro h
    have h2 : now + TTL * 1000 < now + 0 := by simpa using h
    exact absurd (lt_of_add_lt_add_left h2) (not_lt.mpr (le_of_lt this))
  unfold acquire
  cases h : rowOf locks R with
  | none =>
    rw [requestLock_absent TTL now now R H locks h]
    have hr := rowOf_insertLock_same locks R H now (getExpiryTime TTL now) h
    rw [status_active now R _ _ hr hfresh]
    exact ⟨Or.inl rfl, fun _ => ⟨rfl, rfl⟩, fun hd => (by cases hd)⟩
  | some e =>
    by_cases hexp : e.expires_at < now
    · rw [requestLock_expired TTL now now R H locks e h hexp]
      have hr := rowOf_updateLock_same locks R H now (getExpiryTime TTL now) e h
      rw [status_active now R _ _ hr hfresh]
      exact ⟨Or.inl rfl, fun _ => ⟨rfl, rfl⟩, fun hd => (by cases hd)⟩
    · by_cases hp : e.process_id = H
      · rw [requestLock_own TTL now now R H locks e h hexp hp]
        rw [status_active now R locks e h hexp]
        exact ⟨Or.inl rfl, fun _ => ⟨rfl, by rw [hp]⟩, fun hd => (by cases hd)⟩
      · rw [requestLock_other TTL now now R H locks e h hexp hp]
        rw [status_active now R locks e h hexp]
        exact ⟨Or.inr rfl, fun ha => (by cases ha), fun _ => ⟨rfl, e.process_id, rfl, hp⟩⟩

theorem acquire_reply_truthful_witness :
    ((acquire 30 30000 "job-1" "p2" [⟨"job-1", "p1", 0, 30000⟩]).1.status = .acquired ∨
      (acquire 30 30000 "job-1" "p2" [⟨"job-1", "p1", 0, 30000⟩]).1.status = .denied) ∧
    ((acquire 30 30000 "job-1" "p2" [⟨"job-1", "p1", 0, 30000⟩]).1.status = .acquired →
      (status 30000 "job-1"
        (acquire 30 30000 "job-1" "p2" [⟨"job-1", "p1", 0, 30000⟩]).2).is_locked = true ∧
      (status 30000 "job-1"
        (acquire 30 30000 "job-1" "p2" [⟨"job-1", "p1", 0, 30000⟩]).2).process_id =
        some "p2") ∧
    ((acquire 30 30000 "job-1" "p2" [⟨"job-1", "p1", 0, 30000⟩]).1.status = .denied →
      (status 30000 "job-1"
        (acquire 30 30000 "job-1" "p2" [⟨"job-1", "p1", 0, 30000⟩]).2).is_locked = true ∧
      ∃ H2, (status 30000 "job-1"
        (acquire 30 30000 "job-1" "p2" [⟨"job-1", "p1", 0, 30000⟩]).2).process_id =
        some H2 ∧ H2 ≠ "p2") :=
  acquire_reply_truthful 30 30000 [⟨"job-1", "p1", 0, 30000⟩] "job-1" "p2" (by decide)


theorem deleteByName_eq_self (locks : Locks) (R : String)
    (h : ∀ r ∈ locks, r.resource_name ≠ R) : deleteByName locks R = locks := by
  unfold deleteByName
  rw [List.filter_eq_self]
  intro r hr
  simp [h r hr]

/-- On a table with at most one row per name, the `DELETE` by name removes
exactly the row read for that name. -/
theorem deleteByName_eq_erase (locks : Locks) (R : String) (row : Lock)
    (hu : UniqueNames locks) (hrow : rowOf locks R = some row) :
    deleteByName locks R = locks.erase row := by
  induction locks with
  | nil => simp [rowOf, selectByName] at hrow
  | cons r rs ih =>
    have hnot : r.resource_name ∉ rs.map (fun r => r.resource_name) := by
      unfold UniqueNames at hu
      exact (List.nodup_cons.mp hu).1
    have hu2 : UniqueNames rs := by
      unfold UniqueNames at *
      exact (List.nodup_cons.mp hu).2
    by_cases h : r.resource_name = R
    · have hr : row = r := by
        simp [rowOf, selectByName, List.filter_cons, h] at hrow
        exact hrow.symm
      subst hr
      have hrest : ∀ x ∈ rs, x.resource_name ≠ R := by
        intro x hx hxR
        exact hnot (List.mem_map.mpr ⟨x, hx, hxR.trans h.symm⟩)
      have hd : deleteByName (row :: rs) R = deleteByName rs R := by
        simp [deleteByName, List.filter_cons, h]
      rw [hd, deleteByName_eq_self rs R hrest, List.erase_cons_head]
    · have hrow2 : rowOf rs R = some row := by
        simpa [rowOf, selectByName, List.filter_cons, h] using hrow
      have hne : r ≠ row := by
        intro e; apply h; rw [e]; exact rowOf_name hrow2
      have hd : deleteByName (r :: rs) R = r :: deleteByName rs R := by
        simp [deleteByName, List.filter_cons, h]
      rw [hd, ih hu2 hrow2, List.erase_cons_tail (by simpa using hne)]

/-- C8: on a table with at most one row per name whose row for `R` is held by
`H`, a release of `R` by `H` is answered `released`; the table afterwards is the
old one with exactly that row removed (every other row as it was, no row of `R`
left), so the status of `R` is unlocked at every time and a following request
for `R` by any holder is answered `acquired`. -/
theorem release_by_holder_deletes (locks : Locks) (R H : String) (row : Lock)
    (hu : UniqueNames locks) (hrow : rowOf locks R = some row) (hH : row.process_id = H) :
    release R H locks = (⟨.released, R⟩, locks.erase row) ∧
    (release R H locks).2 = locks.filter (fun r => decide (r.resource_name ≠ R)) ∧
    (∀ now : Time, status now R (release R H locks).2 = ⟨R, false, none, none⟩) ∧
    (∀ (TTL : Int) (now : Time) (H2 : String),
      (acquire TTL now R H2 (release R H locks).2).1 = ⟨.acquired, R, H2⟩) := by
  have hrel := release_own R H locks row hrow hH
  have hgone : rowOf (deleteByName locks R) R = none := by
    unfold rowOf; rw [selectByName_deleteByName_same]; rfl
  refine ⟨?_, ?_, ?_, ?_⟩
  · rw [hrel, deleteByName_eq_erase locks R row hu hrow]
  · rw [hrel]
    simp [deleteByName]
  · intro now
    rw [hrel]
    exact status_absent now R _ hgone
  · intro TTL now H2
    rw [hrel]
    unfold acquire
    rw [requestLock_absent TTL now now R H2 _ hgone]

theorem release_by_holder_deletes_witness :
    release "job-1" "p1" [⟨"job-2", "p2", 0, 30000⟩, ⟨"job-1", "p1", 0, 30000⟩] =
      (⟨.released, "job-1"⟩,
        [(⟨"job-2", "p2", 0, 30000⟩ : Lock), ⟨"job-1", "p1", 0, 30000⟩].erase
          ⟨"job-1", "p1", 0, 30000⟩) ∧
    (release "job-1" "p1" [⟨"job-2", "p2", 0, 30000⟩, ⟨"job-1", "p1", 0, 30000⟩]).2 =
      [(⟨"job-2", "p2", 0, 30000⟩ : Lock), ⟨"job-1", "p1", 0, 30000⟩].filter
        (fun r => decide (r.resource_name ≠ "job-1")) ∧
    (∀ now : Time, status now "job-1"
      (release "job-1" "p1" [⟨"job-2", "p2", 0, 30000⟩, ⟨"job-1", "p1", 0, 30000⟩]).2 =
        ⟨"job-1", false, none, none⟩) ∧
    (∀ (TTL : Int) (now : Time) (H2 : String),
      (acquire TTL now "job-1" H2
        (release "job-1" "p1"
          [⟨"job-2", "p2", 0, 30000⟩, ⟨"job-1", "p1", 0, 30000⟩]).2).1 =
        ⟨.acquired, "job-1", H2⟩) :=
  release_by_holder_deletes [⟨"job-2", "p2", 0, 30000⟩, ⟨"job-1", "p1", 0, 30000⟩]
    "job-1" "p1" ⟨"job-1", "p1", 0, 30000⟩ (by decide) (by decide) rfl

/-- C9: when the row read for `R` is held by `H1`, a release of `R` by another
caller `H2` is answered `not_locked_by_process` and leaves the table exactly as
it was, whether or not the row is still active. -/
theorem release_by_non_owner_rejected (locks : Locks) (R H1 H2 : String) (row : Lock)
    (hrow : rowOf locks R = some row) (hH : row.process_id = H1) (hne : H2 ≠ H1) :
    release R H2 locks = (⟨.not_locked_by_process, R⟩, locks) := by
  apply release_other R H2 locks row hrow
  rw [hH]; exact Ne.symm hne

theorem release_by_non_owner_rejected_witness :
    release "job-1" "p2" [⟨"job-1", "p1", 0, 30000⟩] =
      (⟨.not_locked_by_process, "job-1"⟩, [⟨"job-1", "p1", 0, 30000⟩]) :=
  release_by_non_owner_rejected [⟨"job-1", "p1", 0, 30000⟩] "job-1" "p1" "p2"
    ⟨"job-1", "p1", 0, 30000⟩ (by decide) rfl (by decide)

/-- C10, as stated, fails: the only row of the table, `(job-1, p1, 0, 30000)`, is
expired at `now = 40000`, and the release of `job-1` by `p1` is answered
`released` and deletes the row. -/
theorem release_expired_own_row_counterexample :
    rowOf [⟨"job-1", "p1", 0, 30000⟩] "job-1" = some ⟨"job-1", "p1", 0, 30000⟩ ∧
    (⟨"job-1", "p1", 0, 30000⟩ : Lock).expires_at ≤ (40000 : Time) ∧
    release "job-1" "p1" [⟨"job-1", "p1", 0, 30000⟩] = (⟨.released, "job-1"⟩, []) ∧
    (release "job-1" "p1" [⟨"job-1", "p1", 0, 30000⟩]).1.status ≠ .not_locked_by_process ∧
    (release "job-1" "p1" [⟨"job-1", "p1", 0, 30000⟩]).2 ≠ [⟨"job-1", "p1", 0, 30000⟩] := by
  decide

/-- C10, amended: on a table with no row for `R`, or whose row read for `R` is
expired at `now`, a release of `R` by `H` is answered `not_locked_by_process`
and leaves the table exactly as it was provided that row, if any, is held by a
process other than `H`; when the expired row is held by `H` itself, the release
is answered `released` and the table afterwards is the old one without the rows
of `R`. -/
theorem release_absent_or_expired (locks : Locks) (R H : String) (now : Time)
    (h : rowOf locks R = none ∨ ∃ row, rowOf locks R = some row ∧ row.expires_at ≤ now) :
    ((∀ row, rowOf locks R = some row → row.process_id ≠ H) →
      release R H locks = (⟨.not_locked_by_process, R⟩, locks)) ∧
    (∀ row, rowOf locks R = some row → row.process_id = H →
      release R H locks =
        (⟨.released, R⟩, locks.filter (fun r => decide (r.resource_name ≠ R))) ∧
      rowOf (release R H locks).2 R = none) := by
  refine ⟨?_, ?_⟩
  · intro hp
    rcases h with h | ⟨row, hrow, _⟩
    · exact release_absent R H locks h
    · exact release_other R H locks row hrow (hp row hrow)
  · intro row hrow hp
    have hrel := release_own R H locks row hrow hp
    refine ⟨?_, ?_⟩
    · rw [hrel]; simp [deleteByName]
    · rw [hrel]; unfold rowOf; rw [selectByName_deleteByName_same]; rfl

theorem release_absent_or_expired_witness :
    ((∀ row, rowOf [⟨"job-1", "p1", 0, 30000⟩] "job-1" = some row → row.process_id ≠ "p2") →
      release "job-1" "p2" [⟨"job-1", "p1", 0, 30000⟩] =
        (⟨.not_locked_by_process, "job-1"⟩, [⟨"job-1", "p1", 0, 30000⟩])) ∧
    (∀ row, rowOf [⟨"job-1", "p1", 0, 30000⟩] "job-1" = some row → row.process_id = "p2" →
      release "job-1" "p2" [⟨"job-1", "p1", 0, 30000⟩] =
        (⟨.released, "job-1"⟩,
          [(⟨"job-1", "p1", 0, 30000⟩ : Lock)].filter
            (fun r => decide (r.resource_name ≠ "job-1"))) ∧
      rowOf (release "job-1" "p2" [⟨"job-1", "p1", 0, 30000⟩]).2 "job-1" = none) :=
  release_absent_or_expired [⟨"job-1", "p1", 0, 30000⟩] "job-1" "p2" 40000
    (Or.inr ⟨⟨"job-1", "p1", 0, 30000⟩, by decide, by decide⟩)


/-- On a table with at most one row per name, a row of the table is the row the
handlers read for its name. -/
theorem rowOf_of_mem_unique (locks : Locks) (R : String) (row : Lock)
    (hu : UniqueNames locks) (hmem : row ∈ locks) (hname : row.resource_name = R) :
    rowOf locks R = some row := by
  cases h : rowOf locks R with
  | none => exact absurd hname (rowOf_none_iff.mp h row hmem)
  | some r =>
    have hr : r = row :=
      uniqueNames_eq_of_name locks hu r row (rowOf_mem h) hmem
        ((rowOf_name h).trans hname.symm)
    rw [hr]

/-- C11, the code at the failing input: the only row `(job-1, p1, 0, 30000)` has
`expires_at = now = 30000`, and the status of `job-1` at that instant is locked
by `p1`; one millisecond later it is unlocked. The row is in the table in both
cases. -/
theorem status_at_expiry_instant_still_locked :
    status 30000 "job-1" [⟨"job-1", "p1", 0, 30000⟩] =
      ⟨"job-1", true, some "p1", some 0⟩ ∧
    status 30001 "job-1" [⟨"job-1", "p1", 0, 30000⟩] = ⟨"job-1", false, none, none⟩ ∧
    (step 30 [⟨"job-1", "p1", 0, 30000⟩] (.Status "job-1") 30000).2 =
      [⟨"job-1", "p1", 0, 30000⟩] := by
  decide

/-- C12: on a table with at most one row per name, the status of `R` at `now` is
locked with the `process_id` and `acquired_at` of the row of `R` when that row
expires strictly after `now`, and unlocked when the table has no row of `R`; in
every case the status call leaves the table exactly as it was. -/
theorem status_active_and_read_only (TTL : Int) (now : Time) (locks : Locks) (R : String)
    (hu : UniqueNames locks) :
    (∀ row ∈ locks, row.resource_name = R → row.expires_at > now →
      status now R locks = ⟨R, true, some row.process_id, some row.acquired_at⟩) ∧
    ((∀ r ∈ locks, r.resource_name ≠ R) → status now R locks = ⟨R, false, none, none⟩) ∧
    step TTL locks (.Status R) now = (.status (status now R locks), locks) := by
  refine ⟨?_, ?_, rfl⟩
  · intro row hmem hname hact
    exact status_active now R locks row (rowOf_of_mem_unique locks R row hu hmem hname)
      (not_lt.mpr (le_of_lt hact))
  · intro hnone
    exact status_absent now R locks (rowOf_none_iff.mpr hnone)

theorem status_active_and_read_only_witness :
    (∀ row ∈ [(⟨"job-1", "p1", 0, 30000⟩ : Lock), ⟨"job-2", "p2", 10, 20000⟩],
      row.resource_name = "job-1" → row.expires_at > 5000 →
      status 5000 "job-1" [⟨"job-1", "p1", 0, 30000⟩, ⟨"job-2", "p2", 10, 20000⟩] =
        ⟨"job-1", true, some row.process_id, some row.acquired_at⟩) ∧
    ((∀ r ∈ [(⟨"job-1", "p1", 0, 30000⟩ : Lock), ⟨"job-2", "p2", 10, 20000⟩],
        r.resource_name ≠ "job-1") →
      status 5000 "job-1" [⟨"job-1", "p1", 0, 30000⟩, ⟨"job-2", "p2", 10, 20000⟩] =
        ⟨"job-1", false, none, none⟩) ∧
    step 30 [⟨"job-1", "p1", 0, 30000⟩, ⟨"job-2", "p2", 10, 20000⟩] (.Status "job-1") 5000 =
      (.status (status 5000 "job-1"
        [⟨"job-1", "p1", 0, 30000⟩, ⟨"job-2", "p2", 10, 20000⟩]),
        [⟨"job-1", "p1", 0, 30000⟩, ⟨"job-2", "p2", 10, 20000⟩]) :=
  status_active_and_read_only 30 5000
    [⟨"job-1", "p1", 0, 30000⟩, ⟨"job-2", "p2", 10, 20000⟩] "job-1" (by decide)

/-- C13: the list of active locks at `now` is the table restricted, in order, to
the rows whose `expires_at` is strictly greater than `now`, each row as it is in
the table; no row with `expires_at ≤ now` is in it, and the call leaves the
table exactly as it was. -/
theorem allLocked_filters_by_expiry (TTL : Int) (now : Time) (locks : Locks) :
    allLocked now locks = locks.filter (fun r => decide (now < r.expires_at)) ∧
    (∀ r, r ∈ allLocked now locks ↔ r ∈ locks ∧ now < r.expires_at) ∧
    (∀ r ∈ locks, r.expires_at ≤ now → r ∉ allLocked now locks) ∧
    step TTL locks .ListActive now = (.rows (allLocked now locks), locks) := by
  refine ⟨rfl, ?_, ?_, rfl⟩
  · intro r
    simp [allLocked, selectActive, List.mem_filter]
  · intro r _ hexp hin
    have h := (List.mem_filter.mp hin).2
    simp only [decide_eq_true_eq] at h
    exact absurd hexp (not_le.mpr h)

/-- C14: the list of the locks of process `H` at `now` is the list of active
locks at the same `now` restricted to the rows whose `process_id` is `H`; every
row in it is active and held by `H`, and the call leaves the table exactly as it
was. -/
theorem locksOfProcess_refines_allLocked (TTL : Int) (now : Time) (H : String)
    (locks : Locks) :
    locksOfProcess now H locks =
      (allLocked now locks).filter (fun r => decide (r.process_id = H)) ∧
    (∀ r, r ∈ locksOfProcess now H locks ↔ r ∈ allLocked now locks ∧ r.process_id = H) ∧
    (∀ r ∈ locksOfProcess now H locks, now < r.expires_at ∧ r.process_id = H) ∧
    step TTL locks (.ListByHolder H) now = (.rows (locksOfProcess now H locks), locks) := by
  have heq : locksOfProcess now H locks =
      (allLocked now locks).filter (fun r => decide (r.process_id = H)) := by
    unfold locksOfProcess allLocked selectByProcess selectActive
    rw [List.filter_filter]
  refine ⟨heq, ?_, ?_, rfl⟩
  · intro r
    rw [heq, List.mem_filter]
    simp
  · intro r hr
    rw [heq, List.mem_filter] at hr
    have h1 := (List.mem_filter.mp hr.1).2
    simp only [decide_eq_true_eq] at h1
    exact ⟨h1, by simpa using hr.2⟩

/-- C15: with `TTL = 30` seconds, from the empty table, the calls
`Acquire(job-1, p1)` at 0 s, `Acquire(job-1, p2)` at 5 s, `Acquire(job-1, p1)` at
5 s, `Acquire(job-1, p2)` at 40 s and `Release(job-1, p1)` at 41 s (times in
milliseconds below) are answered `acquired`, `denied`, `acquired`, `acquired`
and `not_locked_by_process`, and the final table is the single row
`(job-1, p2, acquired_at = 40 s, expires_at = 70 s)`. -/
theorem example_trace :
    run 30 []
      [(.Acquire "job-1" "p1", 0), (.Acquire "job-1" "p2", 5000),
        (.Acquire "job-1" "p1", 5000), (.Acquire "job-1" "p2", 40000),
        (.Release "job-1" "p1", 41000)] =
      ([.request ⟨.acquired, "job-1", "p1"⟩, .request ⟨.denied, "job-1", "p2"⟩,
        .request ⟨.acquired, "job-1", "p1"⟩, .request ⟨.acquired, "job-1", "p2"⟩,
        .release ⟨.not_locked_by_process, "job-1"⟩],
        [⟨"job-1", "p2", 40000, 70000⟩]) := by
  decide


/-- C16, the code at the failing input: the row `(job-1, p1, 0, 30000)` has
`expires_at = now = 30000`; the request for `job-1` by `p2` at that instant is
answered `denied` and the table is unchanged, although the list of active locks
at the same instant does not contain the row. -/
theorem acquire_at_expiry_instant_denied :
    acquire 30 30000 "job-1" "p2" [⟨"job-1", "p1", 0, 30000⟩] =
      (⟨.denied, "job-1", "p2"⟩, [⟨"job-1", "p1", 0, 30000⟩]) ∧
    allLocked 30000 [⟨"job-1", "p1", 0, 30000⟩] = [] ∧
    acquire 30 30001 "job-1" "p2" [⟨"job-1", "p1", 0, 30000⟩] =
      (⟨.acquired, "job-1", "p2"⟩, [⟨"job-1", "p2", 30001, 60001⟩]) := by
  decide

/-- C17, as stated, fails: on the empty table a request with an empty
`resource_name` and an empty `process_id` is answered `acquired` and inserts the
row `("", "", 0, 30000)`, and the release with the same empty fields of that row
is answered `released`. -/
theorem empty_identifiers_counterexample :
    acquire 30 0 "" "" [] = (⟨.acquired, "", ""⟩, [⟨"", "", 0, 30000⟩]) ∧
    release "" "" [⟨"", "", 0, 30000⟩] = (⟨.released, ""⟩, []) := by
  decide

/-- C17, amended: the handlers do not validate their arguments; for every
`resource_name` and `process_id`, the empty string included, a request is
answered `acquired` or `denied` and a release `released` or
`not_locked_by_process`, after the `SELECT` by name; on a table with no row of
that `resource_name` the request inserts the row as given, and the release of a
row held under that `process_id` deletes the rows of that name. -/
theorem identifiers_not_validated (TTL : Int) (now : Time) (locks : Locks) (R H : String) :
    ((acquire TTL now R H locks).1.status = .acquired ∨
      (acquire TTL now R H locks).1.status = .denied) ∧
    (rowOf locks R = none →
      acquire TTL now R H locks =
        (⟨.acquired, R, H⟩, locks ++ [⟨R, H, now, now + TTL * 1000⟩])) ∧
    ((release R H locks).1.status = .released ∨
      (release R H locks).1.status = .not_locked_by_process) ∧
    (∀ row, rowOf locks R = some row → row.process_id = H →
      release R H locks =
        (⟨.released, R⟩, locks.filter (fun r => decide (r.resource_name ≠ R)))) := by
  refine ⟨?_, ?_, ?_, ?_⟩
  · unfold acquire
    cases h : rowOf locks R with
    | none => rw [requestLock_absent TTL now now R H locks h]; exact Or.inl rfl
    | some e =>
      by_cases hexp : e.expires_at < now
      · rw [requestLock_expired TTL now now R H locks e h hexp]; exact Or.inl rfl
      · by_cases hp : e.process_id = H
        · rw [requestLock_own TTL now now R H locks e h hexp hp]; exact Or.inl rfl
        · rw [requestLock_other TTL now now R H locks e h hexp hp]; exact Or.inr rfl
  · intro h
    unfold acquire
    rw [requestLock_absent TTL now now R H locks h]
    rfl
  · cases h : rowOf locks R with
    | none => rw [release_absent R H locks h]; exact Or.inr rfl
    | some l =>
      by_cases hp : l.process_id = H
      · rw [release_own R H locks l h hp]; exact Or.inl rfl
      · rw [release_other R H locks l h hp]; exact Or.inr rfl
  · intro row hrow hp
    rw [release_own R H locks row hrow hp]
    simp [deleteByName]

/-- Requests at `now` by callers other than the holder of a row that is not
expired at `now` are all answered `denied` and leave the table as it was. -/
theorem run_requests_denied (TTL : Int) (now : Time) (R : String) (row : Lock)
    (Hs : List String) (locks : Locks)
    (hrow : rowOf locks R = some row) (hexp : ¬ row.expires_at < now)
    (hother : ∀ h ∈ Hs, row.process_id ≠ h) :
    run TTL locks (Hs.map (fun h => (Call.Acquire R h, now))) =
      (Hs.map (fun h => Reply.request ⟨.denied, R, h⟩), locks) := by
  induction Hs with
  | nil => rfl
  | cons h hs ih =>
    have hd := requestLock_other TTL now now R h locks row hrow hexp
      (hother h (List.mem_cons_self _ _))
    have ht := ih (fun x hx => hother x (List.mem_cons_of_mem _ hx))
    simp only [List.map_cons, run, step, acquire, hd, ht]

/-- C18, as stated, fails: two requests for `job-1`, by `p1` and by `p2`, are in
flight on a table whose row of `job-1` expired; when both `SELECT`s run before
the first `UPDATE`, both requests are answered `acquired`, none `denied`, and
the row names the last writer. -/
theorem interleaved_requests_counterexample :
    interleave 30 [0, 1, 0, 1]
      ([⟨"job-1", "p1", 40000, 40000, .start⟩, ⟨"job-1", "p2", 40000, 40000, .start⟩],
        [⟨"job-1", "p0", 0, 30000⟩]) =
    ([⟨"job-1", "p1", 40000, 40000, .replied ⟨.acquired, "job-1", "p1"⟩⟩,
      ⟨"job-1", "p2", 40000, 40000, .replied ⟨.acquired, "job-1", "p2"⟩⟩],
      [⟨"job-1", "p2", 40000, 70000⟩]) := by
  decide

/-- C18, amended: when the requests for `R` by pairwise distinct holders run one
after the other at `now` (each `SELECT` directly followed by its own write), on
a table where `R` has no row or a row with `expires_at < now`, and `TTL` is
positive, the first request is answered `acquired`, every other one `denied`,
and the row read for `R` at the end is the one written by the first caller. -/
theorem serial_requests_one_winner (TTL : Int) (now : Time) (locks : Locks) (R H : String)
    (Hs : List String) (hTTL : 0 < TTL) (hnd : (H :: Hs).Nodup)
    (hfree : rowOf locks R = none ∨
      ∃ row, rowOf locks R = some row ∧ row.expires_at < now) :
    (run TTL locks ((H :: Hs).map (fun h => (Call.Acquire R h, now)))).1 =
      Reply.request ⟨.acquired, R, H⟩ :: Hs.map (fun h => Reply.request ⟨.denied, R, h⟩) ∧
    rowOf (run TTL locks ((H :: Hs).map (fun h => (Call.Acquire R h, now)))).2 R =
      some ⟨R, H, now, now + TTL * 1000⟩ := by
  have hfirst : (acquire TTL now R H locks).1 = ⟨.acquired, R, H⟩ ∧
      rowOf (acquire TTL now R H locks).2 R = some ⟨R, H, now, now + TTL * 1000⟩ := by
    unfold acquire
    rcases hfree with h | ⟨row, hrow, hexp⟩
    · rw [requestLock_absent TTL now now R H locks h]
      exact ⟨rfl, rowOf_insertLock_same locks R H now _ h⟩
    · rw [requestLock_expired TTL now now R H locks row hrow hexp]
      exact ⟨rfl, rowOf_updateLock_same locks R H now _ row hrow⟩
  have hfresh : ¬ (⟨R, H, now, now + TTL * 1000⟩ : Lock).expires_at < now := by
    have : (0 : Int) < TTL * 1000 := by positivity
    show ¬ now + TTL * 1000 < now
    intro h
    have h2 : now + TTL * 1000 < now + 0 := by simpa using h
    exact absurd (lt_of_add_lt_add_left h2) (not_lt.mpr (le_of_lt this))
  have hother : ∀ h ∈ Hs, (⟨R, H, now, now + TTL * 1000⟩ : Lock).process_id ≠ h := by
    intro h hh heq
    exact (List.nodup_cons.mp hnd).1 (by rw [show H = h from heq]; exact hh)
  have hrest := run_requests_denied TTL now R _ Hs (acquire TTL now R H locks).2
    hfirst.2 hfresh hother
  simp only [List.map_cons, run, step, hfirst.1, hrest]
  exact ⟨trivial, hfirst.2⟩

theorem serial_requests_one_winner_witness :
    (run 30 [⟨"job-1", "p0", 0, 30000⟩]
      (("p1" :: ["p2", "p3"]).map (fun h => (Call.Acquire "job-1" h, 40000)))).1 =
      Reply.request ⟨.acquired, "job-1", "p1"⟩ ::
        ["p2", "p3"].map (fun h => Reply.request ⟨.denied, "job-1", h⟩) ∧
    rowOf (run 30 [⟨"job-1", "p0", 0, 30000⟩]
      (("p1" :: ["p2", "p3"]).map (fun h => (Call.Acquire "job-1" h, 40000)))).2 "job-1" =
      some ⟨"job-1", "p1", 40000, 40000 + 30 * 1000⟩ :=
  serial_requests_one_winner 30 40000 [⟨"job-1", "p0", 0, 30000⟩] "job-1" "p1"
    ["p2", "p3"] (by decide) (by decide)
    (Or.inr ⟨⟨"job-1", "p0", 0, 30000⟩, by decide, by decide⟩)

/-- The two statements of a request in flight, run with nothing in between, are
the handler `requestLock`. -/
theorem advance_twice (TTL : Int) (R H : String) (now clock : Time) (locks : Locks) :
    advance TTL (advance TTL ⟨R, H, now, clock, .start⟩ locks).1
        (advance TTL ⟨R, H, now, clock, .start⟩ locks).2 =
      (⟨R, H, now, clock, .replied (requestLock TTL now clock R H locks).1⟩,
        (requestLock TTL now clock R H locks).2) := by
  rfl

/-- C19: when the row read for `R` is held by `H` and has `expires_at ≥ now`, a
request for `R` by `H` at `now` is answered `acquired` and leaves the table
exactly as it was; so any number of such requests at times up to the original
`expires_at` leave the table as it was, and the status of `R` on the table after
them is unlocked at every time later than the original `expires_at`. -/
theorem renewal_does_not_extend (TTL : Int) (now : Time) (locks : Locks) (R H : String)
    (row : Lock)
    (hrow : rowOf locks R = some row) (hH : row.process_id = H)
    (hact : row.expires_at ≥ now) :
    acquire TTL now R H locks = (⟨.acquired, R, H⟩, locks) ∧
    (∀ times : List Time, (∀ t ∈ times, t ≤ row.expires_at) →
      run TTL locks (times.map (fun t => (Call.Acquire R H, t))) =
        (times.map (fun _ => Reply.request ⟨.acquired, R, H⟩), locks) ∧
      ∀ later : Time, row.expires_at < later →
        status later R (run TTL locks (times.map (fun t => (Call.Acquire R H, t)))).2 =
          ⟨R, false, none, none⟩) := by
  refine ⟨?_, ?_⟩
  · unfold acquire
    exact requestLock_own TTL now now R H locks row hrow (not_lt.mpr hact) hH
  · intro times htimes
    have hrun : run TTL locks (times.map (fun t => (Call.Acquire R H, t))) =
        (times.map (fun _ => Reply.request ⟨.acquired, R, H⟩), locks) := by
      induction times with
      | nil => rfl
      | cons t ts ih =>
        have h1 := requestLock_own TTL t t R H locks row hrow
          (not_lt.mpr (htimes t (List.mem_cons_self _ _))) hH
        have h2 := ih (fun x hx => htimes x (List.mem_cons_of_mem _ hx))
        simp only [List.map_cons, run, step, acquire, h1, h2]
    refine ⟨hrun, ?_⟩
    intro later hlater
    rw [hrun]
    exact status_expired later R locks row hrow hlater

theorem renewal_does_not_extend_witness :
    acquire 30 5000 "job-1" "p1" [⟨"job-1", "p1", 0, 30000⟩] =
      (⟨.acquired, "job-1", "p1"⟩, [⟨"job-1", "p1", 0, 30000⟩]) ∧
    (∀ times : List Time, (∀ t ∈ times, t ≤ (⟨"job-1", "p1", 0, 30000⟩ : Lock).expires_at) →
      run 30 [⟨"job-1", "p1", 0, 30000⟩]
          (times.map (fun t => (Call.Acquire "job-1" "p1", t))) =
        (times.map (fun _ => Reply.request ⟨.acquired, "job-1", "p1"⟩),
          [⟨"job-1", "p1", 0, 30000⟩]) ∧
      ∀ later : Time, (⟨"job-1", "p1", 0, 30000⟩ : Lock).expires_at < later →
        status later "job-1"
          (run 30 [⟨"job-1", "p1", 0, 30000⟩]
            (times.map (fun t => (Call.Acquire "job-1" "p1", t)))).2 =
          ⟨"job-1", false, none, none⟩) :=
  renewal_does_not_extend 30 5000 [⟨"job-1", "p1", 0, 30000⟩] "job-1" "p1"
    ⟨"job-1", "p1", 0, 30000⟩ (by decide) rfl (by decide)

/-- C20, the code at the failing input: on the table with the single row
`(job-1, p1, 0, 30000)`, at `now = 30000` the status of `job-1` is locked by
`p1`, while the list of active locks at the same `now` has no row of `job-1`. -/
theorem status_and_list_disagree_at_expiry_instant :
    UniqueNames [⟨"job-1", "p1", 0, 30000⟩] ∧
    (status 30000 "job-1" [⟨"job-1", "p1", 0, 30000⟩]).is_locked = true ∧
    (allLocked 30000 [⟨"job-1", "p1", 0, 30000⟩]).filter
      (fun r => decide (r.resource_name = "job-1")) = [] := by
  decide

end LockServer
